import Mathlib

/-!
# Verification of the document ingestion pipeline

Shallow embedding of the ingestion subsystem of the repository
(`src/ingestion/pipeline.py`, `src/ingestion/worker.py`,
`src/ingestion/docling_images.py`,
`src/infrastructure/repositories/document_repo.py`) together with theorems
settling the specification claims about it.

Conventions:
* Python strings are embedded as `String`/`List Char`; machine integers as
  `Int`/`Nat`.
* Fallible code returns `Except String`; the error string stands for the
  exception text.
* Bounded recursion that mirrors a Python `while` loop is written with an
  explicit fuel argument large enough to cover every iteration of the source
  loop, so that all definitions compute by kernel reduction.
-/

namespace Ingestion

/-! ## Small Python-compatible helpers -/

/-- Truthiness of `str.strip()` in a guard position: a string is kept when it
contains at least one non-whitespace character (`if chunk_text.strip():`). -/
def hasNonWs (cs : List Char) : Bool :=
  cs.any (fun c => !c.isWhitespace)

/-- `str.strip()`: remove leading and trailing whitespace. -/
def pyStrip (s : String) : String :=
  ⟨(s.data.dropWhile Char.isWhitespace).reverse.dropWhile Char.isWhitespace |>.reverse⟩

/-- `str.lower()` restricted to ASCII, which is all the source compares. -/
def strLower (s : String) : String :=
  ⟨s.data.map Char.toLower⟩

/-! ## The chunker: `DocumentIngestionPipeline._chunk_text`

```python
def _chunk_text(self, text, *, chunk_size, chunk_overlap):
    if not text:
        return []
    chunk_size = max(chunk_size, 1)
    chunk_overlap = max(chunk_overlap, 0)
    if chunk_overlap >= chunk_size:
        chunk_overlap = chunk_size - 1
    step = max(chunk_size - chunk_overlap, 1)
    chunks = []
    length = len(text)
    start = 0
    while start < length:
        end = min(start + chunk_size, length)
        chunk_text = text[start:end]
        if chunk_text.strip():
            chunks.append((chunk_text, start, end))
        if end == length:
            break
        start += step
    return chunks
```
-/

/-- One window `text[start:end]`. -/
def window (text : List Char) (start e : Nat) : List Char :=
  (text.drop start).take (e - start)

/-- The `while` loop of `_chunk_text`.  `fuel ≥ length - start` guarantees the
loop is never cut short: `start` grows by `step ≥ 1` every iteration. -/
def chunkFrom (text : List Char) (cs ov : Nat) : Nat → Nat → List (List Char × Nat × Nat)
  | 0, _ => []
  | fuel + 1, start =>
    let length := text.length
    let step := max (cs - ov) 1
    if start < length then
      let e := min (start + cs) length
      let w := window text start e
      let emitted := if hasNonWs w then [(w, start, e)] else []
      if e = length then emitted
      else emitted ++ chunkFrom text cs ov fuel (start + step)
    else []

/-- `DocumentIngestionPipeline._chunk_text` over `List Char`; the `Int`
arguments mirror the Python ints and the defensive clamps of the source. -/
def chunk_text (text : List Char) (chunkSize chunkOverlap : Int) :
    List (List Char × Nat × Nat) :=
  if text.isEmpty then []
  else
    let cs : Nat := (max chunkSize 1).toNat
    let ov0 : Nat := (max chunkOverlap 0).toNat
    let ov : Nat := if cs ≤ ov0 then cs - 1 else ov0
    chunkFrom text cs ov text.length 0

/-- Specification-side companion of the loop: the same fixed-step window
sequence, but with no whitespace filter, used to compare the emitted windows
with the windows the spec describes. -/
def genWindows (text : List Char) (cs ov : Nat) : Nat → Nat → List (List Char × Nat × Nat)
  | 0, _ => []
  | fuel + 1, start =>
    let length := text.length
    let step := max (cs - ov) 1
    if start < length then
      let e := min (start + cs) length
      let w := window text start e
      if e = length then [(w, start, e)]
      else (w, start, e) :: genWindows text cs ov fuel (start + step)
    else []

/-- Overlap in characters between two consecutive half-open windows. -/
def overlapOf (a b : List Char × Nat × Nat) : Nat := a.2.2 - b.2.1

example : chunk_text "hello world".data 50 0 = [("hello world".data, 0, 11)] := by
  decide

example :
    (chunk_text "a  bc".data 2 1).map (fun w => (w.2.1, w.2.2)) =
      [(0, 2), (2, 4), (3, 5)] := by
  decide

/-- The loop emits exactly the fixed-step windows that contain a
non-whitespace character. -/
theorem chunkFrom_eq_filter (text : List Char) (cs ov : Nat) :
    ∀ fuel start, chunkFrom text cs ov fuel start =
      (genWindows text cs ov fuel start).filter (fun w => hasNonWs w.1) := by
  intro fuel
  induction fuel with
  | zero => intro start; rfl
  | succ n ih =>
    intro start
    simp only [chunkFrom, genWindows]
    by_cases hlt : start < text.length
    · simp only [hlt, if_true]
      by_cases hend : min (start + cs) text.length = text.length
      · simp only [hend, if_true]
        cases hw : hasNonWs (window text start text.length) <;>
          simp [List.filter_cons, hw]
      · simp only [hend, if_false]
        cases hw : hasNonWs (window text start (min (start + cs) text.length)) <;>
          simp [List.filter_cons, hw, ih]
    · simp [hlt]

/-- Every window in the fixed-step sequence has length at most `cs`, ends no
later than the text, and is the slice of the text its offsets describe. -/
theorem genWindows_mem_spec (text : List Char) (cs ov : Nat) :
    ∀ fuel start, ∀ w ∈ genWindows text cs ov fuel start,
      w.1.length ≤ cs ∧ w.2.2 ≤ text.length ∧ w.1 = window text w.2.1 w.2.2 := by
  intro fuel
  induction fuel with
  | zero => intro start w hw; simp [genWindows] at hw
  | succ n ih =>
    intro start w hw
    simp only [genWindows] at hw
    by_cases hlt : start < text.length
    · simp only [hlt, if_true] at hw
      by_cases hend : min (start + cs) text.length = text.length
      · simp only [hend, if_true, List.mem_singleton] at hw
        subst hw
        refine ⟨?_, ?_, rfl⟩
        · dsimp only [window]
          simp only [List.length_take, List.length_drop]
          omega
        · dsimp only
          omega
      · simp only [hend, if_false, List.mem_cons] at hw
        rcases hw with hw | hw
        · subst hw
          refine ⟨?_, ?_, rfl⟩
          · dsimp only [window]
            simp only [List.length_take, List.length_drop]
            omega
          · dsimp only
            omega
        · exact ih _ w hw
    · simp [hlt] at hw

/-- The head of a fixed-step window sequence starting at `s` begins at `s`
and ends at `min (s + cs) length`. -/
theorem genWindows_head (text : List Char) (cs ov : Nat) (fuel s : Nat) :
    ∀ w ∈ (genWindows text cs ov fuel s).head?,
      w.2.1 = s ∧ w.2.2 = min (s + cs) text.length := by
  intro w hw
  cases fuel with
  | zero => simp [genWindows] at hw
  | succ n =>
    simp only [genWindows] at hw
    by_cases hlt : s < text.length
    · simp only [hlt, if_true] at hw
      by_cases hend : min (s + cs) text.length = text.length
      · simp only [hend, if_true, List.head?, Option.mem_def, Option.some_inj] at hw
        subst hw
        exact ⟨rfl, by dsimp only; omega⟩
      · simp only [hend, if_false, List.head?, Option.mem_def, Option.some_inj] at hw
        subst hw; exact ⟨rfl, rfl⟩
    · simp [hlt] at hw

/-- Consecutive windows of the fixed-step sequence overlap by exactly `ov`
characters whenever `ov < cs`. -/
theorem genWindows_chain (text : List Char) (cs ov : Nat) (h : ov < cs) :
    ∀ fuel start,
      List.Chain' (fun a b => overlapOf a b = ov ∧ b.2.1 ≤ a.2.2)
        (genWindows text cs ov fuel start) := by
  intro fuel
  induction fuel with
  | zero => intro start; simp [genWindows]
  | succ n ih =>
    intro start
    simp only [genWindows]
    by_cases hlt : start < text.length
    · simp only [hlt, if_true]
      by_cases hend : min (start + cs) text.length = text.length
      · simp [hend]
      · simp only [hend, if_false]
        rw [List.chain'_cons']
        refine ⟨?_, ih _⟩
        intro b hb
        have hhead := genWindows_head text cs ov n (start + max (cs - ov) 1) b hb
        have hstep : max (cs - ov) 1 = cs - ov := by omega
        constructor
        · simp only [overlapOf, hhead.1, hstep]
          omega
        · rw [hhead.1, hstep]
          dsimp only
          omega
    · simp [hlt]

/-- `_chunk_text` is the whitespace-filtered fixed-step window sequence when
`chunk_overlap < chunk_size`, with none of the defensive clamps firing. -/
theorem chunk_text_eq_chunkFrom (text : List Char) (cs ov : Int)
    (h1 : 0 ≤ ov) (h2 : ov < cs) :
    chunk_text text cs ov = chunkFrom text cs.toNat ov.toNat text.length 0 := by
  have hcs : max cs 1 = cs := by omega
  have hov : max ov 0 = ov := by omega
  have hno : ¬ (cs.toNat ≤ ov.toNat) := by omega
  by_cases he : text.isEmpty
  · have : text = [] := List.isEmpty_iff.mp he
    subst this
    simp [chunk_text, chunkFrom]
  · simp [chunk_text, he, hcs, hov, hno]

/-- C3: the claim that consecutive *emitted* windows always overlap by exactly
`chunk_overlap` (final window excepted) and that emitted windows sit at a
fixed step is false: with `chunk_size = 2 > chunk_overlap = 1 ≥ 0` on the text
`"a  bc"`, the whitespace-only middle window is dropped, so the emitted
windows are at offsets `(0,2), (2,4), (3,5)` and the first two consecutive
emitted windows (the second of which is not the final one) overlap by `0`,
not `1`. -/
theorem claim_C3_counterexample :
    (chunk_text "a  bc".data 2 1).map (fun w => (w.2.1, w.2.2)) =
        [(0, 2), (2, 4), (3, 5)]
      ∧ 0 + 2 < (chunk_text "a  bc".data 2 1).length
      ∧ overlapOf ((chunk_text "a  bc".data 2 1).getD 0 default)
          ((chunk_text "a  bc".data 2 1).getD 1 default) ≠ 1 := by
  decide

/-- C3 (amended): for all `chunk_size > chunk_overlap ≥ 0`, the chunker emits
exactly the windows of the fixed-step sequence (step
`chunk_size - chunk_overlap`) that contain a non-whitespace character; every
emitted window has length at most `chunk_size`; and in the underlying
fixed-step sequence each pair of consecutive windows overlaps by exactly
`chunk_overlap` characters (only the final window may be shorter). Because
whitespace-only windows are dropped before emission, consecutive *emitted*
windows may overlap by less than `chunk_overlap`. -/
theorem claim_C3_amended (text : List Char) (cs ov : Int)
    (h1 : 0 ≤ ov) (h2 : ov < cs) :
    chunk_text text cs ov =
        (genWindows text cs.toNat ov.toNat text.length 0).filter
          (fun w => hasNonWs w.1)
      ∧ (∀ w ∈ chunk_text text cs ov, w.1.length ≤ cs.toNat)
      ∧ List.Chain' (fun a b => overlapOf a b = ov.toNat ∧ b.2.1 ≤ a.2.2)
          (genWindows text cs.toNat ov.toNat text.length 0) := by
  have heq := chunk_text_eq_chunkFrom text cs ov h1 h2
  have hfil := chunkFrom_eq_filter text cs.toNat ov.toNat text.length 0
  refine ⟨heq.trans hfil, ?_, ?_⟩
  · intro w hw
    rw [heq, hfil] at hw
    have hmem := (List.mem_filter.mp hw).1
    exact (genWindows_mem_spec text cs.toNat ov.toNat text.length 0 w hmem).1
  · exact genWindows_chain text cs.toNat ov.toNat (by omega) text.length 0

/-- Witness for C3 (amended) at `text = "ab cd"`, `chunk_size = 3`,
`chunk_overlap = 1`. -/
theorem claim_C3_amended_witness :
    ((0 : Int) ≤ 1 ∧ (1 : Int) < 3)
      ∧ (chunk_text "ab cd".data 3 1 =
            (genWindows "ab cd".data (3 : Int).toNat (1 : Int).toNat
                "ab cd".data.length 0).filter (fun w => hasNonWs w.1)
          ∧ (∀ w ∈ chunk_text "ab cd".data 3 1, w.1.length ≤ (3 : Int).toNat)
          ∧ List.Chain' (fun a b => overlapOf a b = (1 : Int).toNat ∧ b.2.1 ≤ a.2.2)
              (genWindows "ab cd".data (3 : Int).toNat (1 : Int).toNat
                "ab cd".data.length 0)) :=
  ⟨⟨by decide, by decide⟩, claim_C3_amended "ab cd".data 3 1 (by decide) (by decide)⟩

/-! ## The worker: `src/ingestion/worker.py`

```python
async def process_job(session, job):
    repo = DocumentRepository(session)
    await repo.update_job_status(job, status=IngestionStatus.running)
    await repo.commit()
    try:
        LOGGER.info(...)
        # Placeholder for Docling parsing and vector storage writes.
        await asyncio.sleep(0.1)
        await repo.update_job_status(job, status=IngestionStatus.success)
        await repo.commit()
    except Exception as exc:
        LOGGER.exception(...)
        await repo.update_job_status(job, status=IngestionStatus.failed, error_message=str(exc))
        await repo.commit()
```
-/

/-- `IngestionStatus` of `src/infrastructure/database.py`. -/
inductive JobStatus
  | pending
  | running
  | success
  | failed
deriving DecidableEq, Repr

/-- `IngestionJob.collection` (only the name is read by the pipeline). -/
structure CollectionRec where
  name : String
deriving DecidableEq, Repr

/-- `IngestionJob` row, restricted to the attributes the pipeline and worker
read. -/
structure JobRec where
  id : String
  source : String
  collection : Option CollectionRec := none
  chunkSize : Int := 1200
  chunkOverlap : Int := 150
  parameters : Option (List (String × String)) := none
deriving DecidableEq, Repr

/-- The observable effects `process_job` can perform, in program order.
`runPipeline` stands for an invocation of `DocumentIngestionPipeline.run`;
it is part of the alphabet so that its absence from the actual trace is
expressible. -/
inductive WorkerEffect
  | updateJobStatus (status : JobStatus) (errorMessage : Option String)
  | commit
  | sleep
  | runPipeline
deriving DecidableEq, Repr

/-- Effect trace of `process_job(session, job)`.  The `try` body consists of
a log call, `asyncio.sleep(0.1)` and the success update only — the marked
placeholder comment stands where the pipeline run would be — so no exception
can arise from it and the trace is the same for every job. -/
def process_job_trace (_job : JobRec) : List WorkerEffect :=
  [.updateJobStatus .running none, .commit,
   .sleep,
   .updateJobStatus .success none, .commit]

/-- C1: the claim that the worker runs the ingestion pipeline between the
`running` and `success`/`failed` status updates is contradicted by the code:
for every acquired job, `process_job` marks the job `running`, sleeps, and
marks it `success`; it never invokes the ingestion pipeline and never marks
the job `failed` (its `try` body cannot raise). -/
theorem claim_C1_worker_placeholder (job : JobRec) :
    process_job_trace job =
        [.updateJobStatus .running none, .commit, .sleep,
         .updateJobStatus .success none, .commit]
      ∧ WorkerEffect.runPipeline ∉ process_job_trace job
      ∧ ∀ err, WorkerEffect.updateJobStatus .failed err ∉ process_job_trace job := by
  refine ⟨rfl, by simp [process_job_trace], ?_⟩
  intro err
  simp [process_job_trace]

/-! ### The dequeue race: `worker_loop` and `_acquire_job`

```python
async def _acquire_job(session):
    stmt = (select(IngestionJob)
            .where(IngestionJob.status == IngestionStatus.pending)
            .with_for_update(skip_locked=True)
            .limit(1))
    ...

async def worker_loop(settings, poll_interval=2.0):
    session_factory = get_session_factory()
    while True:
        async with session_factory() as session:
            async with session.begin():
                job = await _acquire_job(session)
                if job is None:
                    await asyncio.sleep(poll_interval)
                    continue
            await process_job(session, job)
        await asyncio.sleep(0)
```

Interleaving model for two workers sharing one pending job.  Worker ids are
`Bool` (`false` = worker 0, `true` = worker 1).  Program counters follow the
source: `0` = execute `_acquire_job` inside the `session.begin()` transaction
(the `SELECT … FOR UPDATE SKIP LOCKED` is one atomic step that takes the row
lock); `1` = leave the `session.begin()` block — the COMMIT releases the row
lock; `2` = `process_job`'s `update_job_status(running)` + commit; `3` =
`update_job_status(success)` + commit, then loop back to `0`. -/

/-- One worker's control state in `worker_loop`. -/
structure WorkerState where
  pc : Nat := 0
deriving DecidableEq, Repr

/-- The shared queue holding a single job row, plus ghost fields recording
which workers' `_acquire_job` calls returned the job and which workers set it
`running` inside `process_job`. -/
structure QueueState where
  status : JobStatus := .pending
  lock : Option Bool := none
  acquiredBy : List Bool := []
  ranBy : List Bool := []
  w0 : WorkerState := {}
  w1 : WorkerState := {}
deriving DecidableEq, Repr

def getWorker (s : QueueState) (i : Bool) : WorkerState :=
  if i then s.w1 else s.w0

def setWorker (s : QueueState) (i : Bool) (w : WorkerState) : QueueState :=
  if i then { s with w1 := w } else { s with w0 := w }

/-- Can worker `i`'s `SELECT … FOR UPDATE SKIP LOCKED` lock the row?  Rows
locked by another transaction are skipped; a row is selectable when it is
`pending` and unlocked (a transaction may re-take its own lock). -/
def rowSelectable (s : QueueState) (i : Bool) : Bool :=
  s.status = JobStatus.pending && (s.lock = none || s.lock = some i)

/-- Execute the next instruction of worker `i`. -/
def workerStep (i : Bool) (s : QueueState) : QueueState :=
  let w := getWorker s i
  match w.pc with
  | 0 =>
    if rowSelectable s i then
      setWorker { s with lock := some i, acquiredBy := s.acquiredBy ++ [i] } i { pc := 1 }
    else
      s
  | 1 =>
    setWorker { s with lock := if s.lock = some i then none else s.lock } i { pc := 2 }
  | 2 =>
    setWorker { s with status := .running, ranBy := s.ranBy ++ [i] } i { pc := 3 }
  | 3 =>
    setWorker { s with status := .success } i { pc := 0 }
  | _ => s

/-- Run a schedule (list of worker ids, each executing its next step). -/
def execSchedule (sched : List Bool) (s : QueueState) : QueueState :=
  sched.foldl (fun st i => workerStep i st) s

/-- C8: the claim that at most one worker's `acquire_job` can return the one
pending job is contradicted by the code: `worker_loop` leaves the
`session.begin()` block — committing the transaction and releasing the
`FOR UPDATE` row lock — *before* `process_job` marks the job `running`, so in
the interleaving `w0 acquires, w0 commits, w1 acquires, w1 commits, w0 marks
running, w1 marks running` both workers' `_acquire_job` calls return the same
pending job and both process it. -/
theorem claim_C8_double_acquire :
    (execSchedule [false, false, true, true, false, true] {}).acquiredBy =
        [false, true]
      ∧ (execSchedule [false, false, true, true, false, true] {}).ranBy =
        [false, true] := by
  decide

/-! ## Events, documents and chunks: the repository state

Model of the rows touched by `DocumentRepository`
(`src/infrastructure/repositories/document_repo.py`).  Rows are kept in
creation order, so "order by created_at, first" is `head?` of the filtered
list.  The embedding-vector payload is an arbitrary type `E` (the embedding
backend is an external collaborator). -/

/-- `IngestionStep` of `src/infrastructure/database.py`. -/
inductive IngStep
  | docling_parse
  | chunk_assembly
  | embedding_indexing
  | citation_enrichment
deriving DecidableEq, Repr

/-- `IngestionEventStatus` of `src/infrastructure/database.py`. -/
inductive EventStatus
  | pending
  | running
  | success
  | failed
deriving DecidableEq, Repr

/-- One entry of the per-chunk citation list stored in the
`citation_enrichment` event detail. -/
structure CitationSummary where
  chunkIndex : Nat
  pageNumber : Int
  imagePath : Option String
  imageUrl : Option String
deriving DecidableEq, Repr

/-- The JSON-like `detail` payloads the pipeline stores on events. -/
inductive EventDetail
  | path (p : String)
  | errorText (msg : String)
  | documents (n : Nat)
  | documentId (id : Nat)
  | chunks (n : Nat)
  | chunksEmbedded (n : Nat)
  | citations (entries : List CitationSummary)
deriving DecidableEq, Repr

/-- Values of the metadata mappings carried by `ParsedDocument`/`ParsedPage`
(`metadata: dict[str, object]` after `_sanitize_metadata`). -/
inductive MetaVal
  | str (s : String)
  | num (n : Int)
  | other
deriving DecidableEq, Repr

/-- A sanitized metadata mapping. -/
abbrev Meta := List (String × MetaVal)

/-- `dict.get(key)`. -/
def metaGet (m : Meta) (k : String) : Option MetaVal :=
  (m.find? (fun kv => kv.1 = k)).map (·.2)

/-- Truthiness of an optional string (`None` and `""` are falsy). -/
def pyTruthyStr : Option String → Bool
  | some s => s ≠ ""
  | none => false

/-- `ParsedPage` of `src/ingestion/pipeline.py`. -/
structure ParsedPage where
  number : Int
  content : String
  metadata : Meta
deriving DecidableEq, Repr

/-- `ParsedDocument` of `src/ingestion/pipeline.py`. -/
structure ParsedDocument where
  title : String
  pages : List ParsedPage
  metadata : Meta
deriving DecidableEq, Repr

/-- The citation object `_prepare_chunks` embeds in each chunk's metadata. -/
structure Citation where
  pageNumber : Int
  imagePath : Option String := none
  doclingHash : Option String := none
  imageUrl : Option String := none
deriving DecidableEq, Repr

/-- The metadata dict `_prepare_chunks` attaches to a `ChunkPayload`. -/
structure ChunkMeta where
  documentId : Nat
  documentTitle : String
  sourcePath : String
  collectionName : String
  ingestionJobId : String
  pageNumber : Int
  pageChunkIndex : Nat
  chunkIndex : Nat
  charStart : Nat
  charEnd : Nat
  chunkSize : Int
  chunkOverlap : Int
  documentMetadata : Option Meta := none
  pageMetadata : Option Meta := none
  citation : Citation
  ingestionParameters : Option (List (String × String)) := none
  chunkCount : Option Nat := none
deriving DecidableEq, Repr

/-- `ChunkPayload` of `src/ingestion/pipeline.py`. -/
structure ChunkPayload where
  text : String
  metadata : ChunkMeta
deriving DecidableEq, Repr

/-- `IngestionEvent` row. -/
structure EventRec where
  id : Nat
  jobId : String
  step : IngStep
  status : EventStatus := .pending
  documentPath : Option String := none
  documentId : Option Nat := none
  documentTitle : Option String := none
  detail : Option EventDetail := none
deriving DecidableEq, Repr

/-- `Document` row (the attributes the pipeline writes). -/
structure DocumentRec where
  id : Nat
  title : String
  sourcePath : String
  ingestionJobId : String
deriving DecidableEq, Repr

/-- `Chunk` row. -/
structure ChunkRec (E : Type) where
  documentId : Nat
  content : String
  embeddingModel : Option String
  embedding : Option E
  metadata : ChunkMeta
deriving DecidableEq, Repr

/-- The relational store as seen by the pipeline. -/
structure DBState (E : Type) where
  nextDocumentId : Nat := 0
  nextEventId : Nat := 0
  events : List EventRec := []
  documents : List DocumentRec := []
  chunks : List (ChunkRec E) := []
deriving DecidableEq, Repr

/-- `DocumentRepository.get_event_for_step`: first event (in creation order)
of the given job and step. -/
def get_event_for_step {E : Type} (st : DBState E) (jobId : String)
    (step : IngStep) : Option EventRec :=
  (st.events.filter (fun e => e.jobId = jobId ∧ e.step = step)).head?

/-- `DocumentRepository.create_event`. -/
def create_event {E : Type} (st : DBState E) (jobId : String) (step : IngStep)
    (status : EventStatus) (documentPath : Option String) :
    EventRec × DBState E :=
  let e : EventRec :=
    { id := st.nextEventId, jobId := jobId, step := step, status := status,
      documentPath := documentPath }
  (e, { st with nextEventId := st.nextEventId + 1, events := st.events ++ [e] })

/-- Replace the event with the given id. -/
def setEvent {E : Type} (st : DBState E) (eventId : Nat) (e' : EventRec) :
    DBState E :=
  { st with events := st.events.map (fun e => if e.id = eventId then e' else e) }

/-- `DocumentRepository.update_event_status`: set the status, and set detail /
document_id / document_title only when a value is passed. -/
def update_event_status {E : Type} (st : DBState E) (event : EventRec)
    (status : EventStatus) (detail : Option EventDetail)
    (documentId : Option Nat) (documentTitle : Option String) :
    EventRec × DBState E :=
  let e' : EventRec :=
    { event with
      status := status
      detail := match detail with | some d => some d | none => event.detail
      documentId := match documentId with
        | some d => some d
        | none => event.documentId
      documentTitle := match documentTitle with
        | some t => some t
        | none => event.documentTitle }
  (e', setEvent st event.id e')

/-- `DocumentIngestionPipeline._ensure_event`:

```python
event = await self.repository.get_event_for_step(job.id, step)
if event is None:
    event = await self.repository.create_event(
        job_id=job.id, step=step,
        status=IngestionEventStatus.pending, document_path=document_path)
elif document_path and not event.document_path:
    event.document_path = document_path
return event
```
-/
def ensure_event {E : Type} (st : DBState E) (job : JobRec) (step : IngStep)
    (documentPath : Option String) : EventRec × DBState E :=
  match get_event_for_step st job.id step with
  | some e =>
    if pyTruthyStr documentPath && !(pyTruthyStr e.documentPath) then
      let e' := { e with documentPath := documentPath }
      (e', setEvent st e.id e')
    else (e, st)
  | none => create_event st job.id step .pending documentPath

/-- In a list with pairwise-distinct ids, an id determines the element. -/
theorem pairwise_id_unique (l : List EventRec)
    (h : l.Pairwise (fun a b => a.id ≠ b.id)) :
    ∀ e ∈ l, ∀ x ∈ l, x.id = e.id → x = e := by
  induction l with
  | nil => simp
  | cons a as ih =>
    intro e he x hx hid
    have ha : ∀ b ∈ as, a.id ≠ b.id := (List.pairwise_cons.mp h).1
    have has := (List.pairwise_cons.mp h).2
    rcases List.mem_cons.mp he with he | he
    · rcases List.mem_cons.mp hx with hx | hx
      · rw [he, hx]
      · exfalso
        rw [he] at hid
        exact (ha x hx) hid.symm
    · rcases List.mem_cons.mp hx with hx | hx
      · exfalso
        rw [hx] at hid
        exact (ha e he) hid
      · exact ih has e he x hx hid

/-- Replacing (by id) the head of the filtered list with an element that still
satisfies the filter makes the replacement the new head. -/
theorem head_filter_set (p : EventRec → Bool) (l : List EventRec)
    (e e' : EventRec) (hp : p e' = true)
    (hhead : (l.filter p).head? = some e)
    (huniq : ∀ x ∈ l, x.id = e.id → x = e) :
    ((l.map (fun x => if x.id = e.id then e' else x)).filter p).head? =
      some e' := by
  induction l with
  | nil => simp [List.filter] at hhead
  | cons a as ih =>
    have hpe : p e = true := by
      have hmem : e ∈ (a :: as).filter p :=
        List.mem_of_mem_head? (by rw [hhead]; exact rfl)
      exact (List.mem_filter.mp hmem).2
    by_cases hpa : p a = true
    · have hea : e = a := by
        simp only [List.filter_cons, hpa, if_true, List.head?, Option.some_inj] at hhead
        exact hhead.symm
      subst hea
      simp [List.filter_cons, hp, hpa]
    · have hne : a.id ≠ e.id := by
        intro hid
        have : a = e := huniq a (List.mem_cons_self a as) hid
        rw [this] at hpa
        exact hpa hpe
      have hhead' : (as.filter p).head? = some e := by
        simpa [List.filter_cons, hpa] using hhead
      have huniq' : ∀ x ∈ as, x.id = e.id → x = e := fun x hx =>
        huniq x (List.mem_cons_of_mem a hx)
      simpa [List.filter_cons, hne, hpa] using ih hhead' huniq'

/-- `ensure_event` when no event exists: it creates one. -/
theorem ensure_event_of_get_none {E : Type} (st : DBState E) (job : JobRec)
    (step : IngStep) (dp : Option String)
    (hget : get_event_for_step st job.id step = none) :
    ensure_event st job step dp = create_event st job.id step .pending dp := by
  unfold ensure_event
  rw [hget]

/-- `ensure_event` when an event exists and no document-path backfill fires:
it returns that event and changes nothing. -/
theorem ensure_event_of_get_some {E : Type} (st : DBState E) (job : JobRec)
    (step : IngStep) (dp : Option String) (e : EventRec)
    (hget : get_event_for_step st job.id step = some e)
    (hcond : (pyTruthyStr dp && !(pyTruthyStr e.documentPath)) = false) :
    ensure_event st job step dp = (e, st) := by
  unfold ensure_event
  rw [hget]
  simp [hcond]

/-- `ensure_event` when an event exists and the document-path backfill fires:
it returns that event with the path set, in place. -/
theorem ensure_event_of_get_some_upd {E : Type} (st : DBState E) (job : JobRec)
    (step : IngStep) (dp : Option String) (e : EventRec)
    (hget : get_event_for_step st job.id step = some e)
    (hcond : (pyTruthyStr dp && !(pyTruthyStr e.documentPath)) = true) :
    ensure_event st job step dp =
      ({ e with documentPath := dp },
        setEvent st e.id { e with documentPath := dp }) := by
  unfold ensure_event
  rw [hget]
  simp [hcond]

/-- After `create_event`, the created event is the one `get_event_for_step`
finds (when none matched before). -/
theorem get_event_after_create {E : Type} (st : DBState E) (j : String)
    (s : IngStep) (status : EventStatus) (dp : Option String)
    (hget : get_event_for_step st j s = none) :
    get_event_for_step (create_event st j s status dp).2 j s =
      some (create_event st j s status dp).1 := by
  have hfil : st.events.filter (fun e => e.jobId = j ∧ e.step = s) = [] :=
    List.head?_eq_none_iff.mp hget
  unfold get_event_for_step create_event
  dsimp only
  rw [List.filter_append, hfil, List.nil_append]
  simp

/-- C6: `ensure_event` is idempotent per `(job, step)`: a second call returns
the very same event record and leaves the event table unchanged; a new
`pending` event is created exactly when no event for that `(job, step)`
exists, and when one exists no row is added. -/
theorem claim_C6_ensure_event_idempotent {E : Type} (st : DBState E)
    (job : JobRec) (step : IngStep) (dp : Option String)
    (hwf : st.events.Pairwise (fun a b => a.id ≠ b.id)) :
    ensure_event ((ensure_event st job step dp).2) job step dp =
        ensure_event st job step dp
      ∧ (get_event_for_step st job.id step = none →
          (ensure_event st job step dp).1.status = .pending
            ∧ (ensure_event st job step dp).2.events.length =
                st.events.length + 1)
      ∧ (∀ e, get_event_for_step st job.id step = some e →
          (ensure_event st job step dp).1.id = e.id
            ∧ (ensure_event st job step dp).2.events.length =
                st.events.length) := by
  cases hget : get_event_for_step st job.id step with
  | none =>
    have h1 := ensure_event_of_get_none st job step dp hget
    have hget2 :
        get_event_for_step ((ensure_event st job step dp).2) job.id step =
          some (ensure_event st job step dp).1 := by
      rw [h1]
      exact get_event_after_create st job.id step .pending dp hget
    have hdoc : (ensure_event st job step dp).1.documentPath = dp := by
      rw [h1]
      rfl
    have hc : (pyTruthyStr dp &&
        !(pyTruthyStr (ensure_event st job step dp).1.documentPath)) = false := by
      rw [hdoc]
      exact Bool.and_not_self _
    refine ⟨?_, fun _ => ⟨by rw [h1]; rfl, by rw [h1]; simp [create_event]⟩,
      fun e he => by simp at he⟩
    exact ensure_event_of_get_some _ job step dp _ hget2 hc
  | some e =>
    have hmem0 : e ∈ st.events.filter (fun x => x.jobId = job.id ∧ x.step = step) :=
      List.mem_of_mem_head? (Option.mem_def.mpr hget)
    have hpe := (List.mem_filter.mp hmem0).2
    have huniq := pairwise_id_unique st.events hwf e (List.mem_filter.mp hmem0).1
    by_cases hcond : (pyTruthyStr dp && !(pyTruthyStr e.documentPath)) = true
    · have hdp : pyTruthyStr dp = true := by
        revert hcond
        cases pyTruthyStr dp <;> simp
      have h1 := ensure_event_of_get_some_upd st job step dp e hget hcond
      have hget2 :
          get_event_for_step (setEvent st e.id { e with documentPath := dp })
            job.id step = some { e with documentPath := dp } := by
        unfold get_event_for_step setEvent
        exact head_filter_set _ st.events e { e with documentPath := dp } hpe
          hget huniq
      have hc2 : (pyTruthyStr dp &&
          !(pyTruthyStr ({ e with documentPath := dp} : EventRec).documentPath)) = false := by
        show (pyTruthyStr dp && !(pyTruthyStr dp)) = false
        exact Bool.and_not_self _
      refine ⟨?_, fun hn => by simp at hn, fun x hx => ?_⟩
      · rw [h1]
        exact ensure_event_of_get_some _ job step dp _ hget2 hc2
      · have hxe : e = x := by simpa using hx
        rw [h1, ← hxe]
        exact ⟨rfl, by simp [setEvent]⟩
    · have hc : (pyTruthyStr dp && !(pyTruthyStr e.documentPath)) = false := by
        revert hcond
        cases (pyTruthyStr dp && !(pyTruthyStr e.documentPath)) <;> simp
      have h1 := ensure_event_of_get_some st job step dp e hget hc
      refine ⟨?_, fun hn => by simp at hn, fun x hx => ?_⟩
      · rw [h1]
        exact ensure_event_of_get_some _ job step dp _ hget hc
      · have hxe : e = x := by simpa using hx
        rw [h1, ← hxe]
        exact ⟨rfl, rfl⟩

/-- Witness for C6 on an empty store with a concrete job and step. -/
theorem claim_C6_witness :
    (([] : List EventRec).Pairwise (fun a b => a.id ≠ b.id))
      ∧ (ensure_event ((ensure_event ({} : DBState Unit)
            { id := "job-1", source := "/tmp/a.txt" } .docling_parse
            (some "/tmp/a.txt")).2)
            { id := "job-1", source := "/tmp/a.txt" } .docling_parse
            (some "/tmp/a.txt") =
          ensure_event ({} : DBState Unit)
            { id := "job-1", source := "/tmp/a.txt" } .docling_parse
            (some "/tmp/a.txt")
        ∧ (get_event_for_step ({} : DBState Unit) "job-1" .docling_parse = none →
            (ensure_event ({} : DBState Unit)
                { id := "job-1", source := "/tmp/a.txt" } .docling_parse
                (some "/tmp/a.txt")).1.status = .pending
              ∧ (ensure_event ({} : DBState Unit)
                  { id := "job-1", source := "/tmp/a.txt" } .docling_parse
                  (some "/tmp/a.txt")).2.events.length =
                  ({} : DBState Unit).events.length + 1)
        ∧ (∀ e, get_event_for_step ({} : DBState Unit) "job-1" .docling_parse =
              some e →
            (ensure_event ({} : DBState Unit)
                { id := "job-1", source := "/tmp/a.txt" } .docling_parse
                (some "/tmp/a.txt")).1.id = e.id
              ∧ (ensure_event ({} : DBState Unit)
                  { id := "job-1", source := "/tmp/a.txt" } .docling_parse
                  (some "/tmp/a.txt")).2.events.length =
                  ({} : DBState Unit).events.length)) :=
  ⟨by simp, claim_C6_ensure_event_idempotent ({} : DBState Unit)
    { id := "job-1", source := "/tmp/a.txt" } .docling_parse
    (some "/tmp/a.txt") (by simp)⟩

/-! ## Paths and source discovery

POSIX paths are embedded as resolved component lists (`FPath`); a model file
system records which paths are existing files or directories, plus the
working directory and home directory used by `Path.resolve()` /
`Path.expanduser()`. -/

/-- An absolute, resolved path as its components (no `.`/`..`). -/
abbrev FPath := List String

/-- `str(path)` for an absolute path. -/
def fpathStr (p : FPath) : String :=
  p.foldl (fun acc c => acc ++ "/" ++ c) ""

/-- `PurePath.name`: the final component. -/
def fpathName (p : FPath) : String :=
  p.getLast?.getD ""

/-- `PurePath.suffix` of a file name: from the last dot, except when that dot
is the first or last character. -/
def pathSuffix (name : String) : String :=
  let cs := name.data
  match ((List.range cs.length).filter (fun i => cs.getD i ' ' = '.')).getLast? with
  | none => ""
  | some i => if 0 < i ∧ i < cs.length - 1 then ⟨cs.drop i⟩ else ""

/-- `PurePath.stem`: the name without its suffix. -/
def pathStem (name : String) : String :=
  ⟨name.data.take (name.data.length - (pathSuffix name).data.length)⟩

/-- `SUPPORTED_EXTENSIONS` of `src/ingestion/pipeline.py`. -/
def SUPPORTED_EXTENSIONS : List String := [".txt", ".md", ".pdf", ".json"]

/-- `DocumentIngestionPipeline._is_supported`. -/
def is_supported (allowed : List String) (p : FPath) : Bool :=
  allowed.contains (strLower (pathSuffix (fpathName p)))

/-- Model file system. -/
structure FileSys where
  cwd : FPath := []
  home : FPath := []
  files : List FPath := []
  dirs : List FPath := []
deriving DecidableEq, Repr

def isFile (fs : FileSys) (p : FPath) : Bool := fs.files.contains p

def isDir (fs : FileSys) (p : FPath) : Bool := fs.dirs.contains p

/-- Split a character list at `/` (kernel-computable `str.split("/")`). -/
def splitSlash : List Char → List (List Char)
  | [] => [[]]
  | c :: rest =>
    let r := splitSlash rest
    if c = '/' then [] :: r
    else
      match r with
      | [] => [[c]]
      | g :: gs => (c :: g) :: gs

/-- Split a raw path string: absolute flag and components (`pathlib` drops
empty components and `.`). -/
def parseRawPath (s : String) : Bool × List String :=
  (s.data.head? = some '/',
   ((splitSlash s.data).map (fun g => (⟨g⟩ : String))).filter
     (fun c => c ≠ "" ∧ c ≠ "."))

/-- Normalise `..` components against an absolute prefix. -/
def resolveComps (comps : List String) : FPath :=
  comps.foldl (fun acc c => if c = ".." then acc.dropLast else acc ++ [c]) []

/-- `Path(s).expanduser()` for a bare leading `~`. -/
def expandUser (fs : FileSys) (p : Bool × List String) : Bool × List String :=
  match p.2 with
  | "~" :: rest => (true, fs.home ++ rest)
  | _ => p

/-- `Path(source).expanduser().resolve()`. -/
def resolvePathStr (fs : FileSys) (s : String) : FPath :=
  let p := expandUser fs (parseRawPath s)
  if p.1 then resolveComps p.2 else resolveComps (fs.cwd ++ p.2)

/-- `DocumentIngestionPipeline._collect_sources`:

```python
path = Path(source).expanduser().resolve()
if path.is_file() and self._is_supported(path):
    return [path]
if path.is_dir():
    return [candidate for candidate in path.rglob("*")
            if candidate.is_file() and self._is_supported(candidate)]
raise IngestionError(f"Source {source} does not exist")
```

`rglob("*")` iterates *recursively*, so every file anywhere under the
directory is a candidate. -/
def collect_sources (fs : FileSys) (allowed : List String) (source : String) :
    Except String (List FPath) :=
  let path := resolvePathStr fs source
  if isFile fs path && is_supported allowed path then .ok [path]
  else if isDir fs path then
    .ok (fs.files.filter (fun f =>
      path.isPrefixOf f && !(f == path) && is_supported allowed f))
  else .error ("Source " ++ source ++ " does not exist")

/-! ## `DocumentIngestionPipeline._prepare_chunks` and `run` -/

/-- Pipeline construction arguments (`chunk_size`, `chunk_overlap`,
`allowed_extensions`). -/
structure PipelineCfg where
  chunkSize : Int := 1200
  chunkOverlap : Int := 150
  allowedExtensions : List String := SUPPORTED_EXTENSIONS

/-- `job.chunk_size or self.chunk_size` (`0` is falsy in Python). -/
def jobChunkSize (job : JobRec) (cfg : PipelineCfg) : Int :=
  if job.chunkSize = 0 then cfg.chunkSize else job.chunkSize

/-- `job.chunk_overlap or self.chunk_overlap`. -/
def jobChunkOverlap (job : JobRec) (cfg : PipelineCfg) : Int :=
  if job.chunkOverlap = 0 then cfg.chunkOverlap else job.chunkOverlap

/-- `job.collection.name if job.collection else "default"`. -/
def collectionNameOf (job : JobRec) : String :=
  match job.collection with
  | some c => c.name
  | none => "default"

/-- Python truthiness of a metadata value. -/
def pyTruthyMetaVal : Option MetaVal → Bool
  | some (.str s) => s ≠ ""
  | some (.num n) => n ≠ 0
  | some .other => true
  | none => false

/-- `value = mapping.get(key); if isinstance(value, str) and value.strip():
use value.strip()`. -/
def metaStrStripped (m : Meta) (k : String) : Option String :=
  match metaGet m k with
  | some (.str s) => if pyStrip s ≠ "" then some (pyStrip s) else none
  | _ => none

/-- `_chunk_text` over `String`. -/
def chunkTextStr (s : String) (cs ov : Int) : List (String × Nat × Nat) :=
  (chunk_text s.data cs ov).map (fun w => (⟨w.1⟩, w.2.1, w.2.2))

/-- The chunk-metadata dict built in the body of `_prepare_chunks` for one
window of one page. -/
def chunkMetaFor (parsed : ParsedDocument) (documentId : Nat) (path : FPath)
    (job : JobRec) (chunkSize chunkOverlap : Int) (page : ParsedPage)
    (pageChunkIndex chunkIndex startChar endChar : Nat) : ChunkMeta :=
  let rawImagePath : Option MetaVal :=
    if page.metadata.isEmpty then none else metaGet page.metadata "image_path"
  let citImagePath : Option String :=
    if page.metadata.isEmpty then none
    else metaStrStripped page.metadata "image_path"
  let pageHash : Option String :=
    match (if page.metadata.isEmpty then none
           else metaStrStripped page.metadata "docling_hash") with
    | some h => some h
    | none => metaStrStripped parsed.metadata "docling_hash"
  let imageUrl : Option String :=
    if pyTruthyMetaVal rawImagePath || pageHash.isSome then
      some ("/ingestion/documents/" ++ toString documentId ++ "/pages/" ++
        toString page.number ++ "/preview")
    else none
  { documentId := documentId
    documentTitle := parsed.title
    sourcePath := fpathStr path
    collectionName := collectionNameOf job
    ingestionJobId := job.id
    pageNumber := page.number
    pageChunkIndex := pageChunkIndex
    chunkIndex := chunkIndex
    charStart := startChar
    charEnd := endChar
    chunkSize := chunkSize
    chunkOverlap := chunkOverlap
    documentMetadata := if parsed.metadata.isEmpty then none else some parsed.metadata
    pageMetadata := if page.metadata.isEmpty then none else some page.metadata
    citation :=
      { pageNumber := page.number
        imagePath := citImagePath
        doclingHash := pageHash
        imageUrl := imageUrl }
    ingestionParameters :=
      match job.parameters with
      | some ps => if ps.isEmpty then none else some ps
      | none => none
    chunkCount := none }

/-- The inner `for page_chunk_index, (chunk_text, start_char, end_char) in
enumerate(self._chunk_text(...), start=1)` loop, threading the running
document-wide `chunk_index`. -/
def pagePayloads (parsed : ParsedDocument) (documentId : Nat) (path : FPath)
    (job : JobRec) (chunkSize chunkOverlap : Int) (page : ParsedPage) :
    Nat → Nat → List (String × Nat × Nat) → Nat × List ChunkPayload
  | chunkIndex, _, [] => (chunkIndex, [])
  | chunkIndex, pageChunkIndex, (text, startChar, endChar) :: rest =>
    if hasNonWs text.data then
      let ci := chunkIndex + 1
      let meta := chunkMetaFor parsed documentId path job chunkSize chunkOverlap
        page pageChunkIndex ci startChar endChar
      let next := pagePayloads parsed documentId path job chunkSize chunkOverlap
        page ci (pageChunkIndex + 1) rest
      (next.1, { text := text, metadata := meta } :: next.2)
    else
      pagePayloads parsed documentId path job chunkSize chunkOverlap page
        chunkIndex (pageChunkIndex + 1) rest

/-- `DocumentIngestionPipeline._prepare_chunks`. -/
def prepare_chunks (parsed : ParsedDocument) (documentId : Nat) (path : FPath)
    (job : JobRec) (chunkSize chunkOverlap : Int) : List ChunkPayload :=
  (parsed.pages.foldl
    (fun acc page =>
      let windows := chunkTextStr page.content chunkSize chunkOverlap
      let r := pagePayloads parsed documentId path job chunkSize chunkOverlap
        page acc.1 1 windows
      (r.1, acc.2 ++ r.2))
    (0, [])).2

/-- `DocumentRepository.create_document` (the row the pipeline writes). -/
def create_document {E : Type} (st : DBState E) (title sourcePath jobId : String) :
    DocumentRec × DBState E :=
  let d : DocumentRec :=
    { id := st.nextDocumentId, title := title, sourcePath := sourcePath,
      ingestionJobId := jobId }
  (d, { st with nextDocumentId := st.nextDocumentId + 1,
                documents := st.documents ++ [d] })

/-- `DocumentRepository.add_chunk`. -/
def add_chunk {E : Type} (st : DBState E) (documentId : Nat) (content : String)
    (embeddingModel : Option String) (embedding : Option E)
    (metadata : ChunkMeta) : DBState E :=
  { st with chunks := st.chunks ++
      [{ documentId := documentId, content := content,
         embeddingModel := embeddingModel, embedding := embedding,
         metadata := metadata }] }

/-- The embedding backend (`EmbeddingClient`): an external collaborator whose
`embed` call may raise; `modelName` is `getattr(embedder, "model_name",
None)`. -/
structure Embedder (E : Type) where
  embed : List String → Except String (List E)
  modelName : Option String := none

/-- The per-document body of `DocumentIngestionPipeline.run` (document row,
chunk assembly, embedding, citation enrichment).  Commits are immediate in
the source and are therefore not modelled as separate state.  Only the parse
step of `run` has a `try`/`except`; an exception from `embedder.embed`
propagates with the `embedding_indexing` event left in its `running` state. -/
def runOneDocument {E : Type} (cfg : PipelineCfg) (embedder : Embedder E)
    (job : JobRec) (path : FPath) (parsed : ParsedDocument) (st : DBState E) :
    Except String Unit × DBState E :=
  let pathStr := fpathStr path
  let title := if parsed.title ≠ "" then parsed.title else pathStem (fpathName path)
  let r1 := create_document st title pathStr job.id
  let document := r1.1
  let r2 := ensure_event r1.2 job .chunk_assembly (some pathStr)
  let r3 := update_event_status r2.2 r2.1 .running
    (some (.documentId document.id)) (some document.id) (some document.title)
  let chunkPayloads := prepare_chunks parsed document.id path job
    (jobChunkSize job cfg) (jobChunkOverlap job cfg)
  let r4 := update_event_status r3.2 r3.1 .success
    (some (.chunks chunkPayloads.length)) (some document.id) (some document.title)
  if chunkPayloads.isEmpty then (.ok (), r4.2)
  else
    let r5 := ensure_event r4.2 job .embedding_indexing (some pathStr)
    let r6 := update_event_status r5.2 r5.1 .running
      (some (.chunks chunkPayloads.length)) (some document.id) (some document.title)
    match embedder.embed (chunkPayloads.map (·.text)) with
    | .error e => (.error e, r6.2)
    | .ok embeddings =>
      let total := chunkPayloads.length
      let st7 := (chunkPayloads.zip embeddings).foldl
        (fun acc cv =>
          add_chunk acc document.id cv.1.text embedder.modelName (some cv.2)
            { cv.1.metadata with
              chunkCount := some (cv.1.metadata.chunkCount.getD total) })
        r6.2
      let r8 := update_event_status st7 r6.1 .success
        (some (.chunksEmbedded total)) (some document.id) (some document.title)
      let r9 := ensure_event r8.2 job .citation_enrichment (some pathStr)
      let citations := chunkPayloads.map (fun cp =>
        { chunkIndex := cp.metadata.chunkIndex
          pageNumber := cp.metadata.pageNumber
          imagePath := cp.metadata.citation.imagePath
          imageUrl := cp.metadata.citation.imageUrl : CitationSummary })
      let r10 := update_event_status r9.2 r9.1 .success
        (some (.citations citations)) (some document.id) (some document.title)
      (.ok (), r10.2)

/-- The `for parsed_document in parsed_documents` loop of `run`. -/
def runDocs {E : Type} (cfg : PipelineCfg) (embedder : Embedder E)
    (job : JobRec) (path : FPath) :
    List ParsedDocument → DBState E → Except String Unit × DBState E
  | [], st => (.ok (), st)
  | parsed :: rest, st =>
    match runOneDocument cfg embedder job path parsed st with
    | (.error e, st') => (.error e, st')
    | (.ok _, st') => runDocs cfg embedder job path rest st'

/-- The `for path in paths` loop of `run`, including the only `try`/`except`
of the function: a parse failure marks the `docling_parse` event `failed`
with the error text and re-raises. -/
def runPaths {E : Type} (cfg : PipelineCfg)
    (parse : FPath → Except String (List ParsedDocument))
    (embedder : Embedder E) (job : JobRec) :
    List FPath → DBState E → Except String Unit × DBState E
  | [], st => (.ok (), st)
  | path :: rest, st =>
    let pathStr := fpathStr path
    let r1 := ensure_event st job .docling_parse (some pathStr)
    let r2 := update_event_status r1.2 r1.1 .running (some (.path pathStr))
      none none
    match parse path with
    | .error exc =>
      let r3 := update_event_status r2.2 r2.1 .failed (some (.errorText exc))
        none none
      (.error exc, r3.2)
    | .ok parsedDocuments =>
      let r3 := update_event_status r2.2 r2.1 .success
        (some (.documents parsedDocuments.length)) none none
      match runDocs cfg embedder job path parsedDocuments r3.2 with
      | (.error e, st') => (.error e, st')
      | (.ok _, st') => runPaths cfg parse embedder job rest st'

/-- `DocumentIngestionPipeline.run(job)`. -/
def runJob {E : Type} (cfg : PipelineCfg)
    (parse : FPath → Except String (List ParsedDocument))
    (embedder : Embedder E) (fs : FileSys) (job : JobRec) (st : DBState E) :
    Except String Unit × DBState E :=
  match collect_sources fs cfg.allowedExtensions job.source with
  | .error e => (.error e, st)
  | .ok [] => (.error ("No documents found at source: " ++ job.source), st)
  | .ok (p :: ps) => runPaths cfg parse embedder job (p :: ps) st

instance {ε α : Type} [DecidableEq ε] [DecidableEq α] :
    DecidableEq (Except ε α) := fun x y =>
  match x, y with
  | .ok a, .ok b =>
    if h : a = b then isTrue (by rw [h])
    else isFalse (fun hh => h (Except.ok.inj hh))
  | .error a, .error b =>
    if h : a = b then isTrue (by rw [h])
    else isFalse (fun hh => h (Except.error.inj hh))
  | .ok _, .error _ => isFalse (fun hh => Except.noConfusion hh)
  | .error _, .ok _ => isFalse (fun hh => Except.noConfusion hh)

/-! ## Concrete scenarios for the claims about `run` -/

/-- Parser returning one document whose only page is whitespace after
sanitisation (the scenario of `tests/ingestion/test_ingestion.py::
test_pipeline_raises_when_no_chunks`). -/
def emptyPageParser : FPath → Except String (List ParsedDocument) := fun _ =>
  .ok [{ title := "Empty"
         pages := [{ number := 1, content := "   ",
                     metadata := [("docling_hash", .str "hash-empty")] }]
         metadata := [("docling_hash", .str "hash-empty")] }]

/-- Embedder that fails if it is ever called. -/
def guardedEmbedder : Embedder Unit :=
  { embed := fun _ => .error "embedding should not run" }

def emptyPdfFs : FileSys := { files := [["tmp", "empty.pdf"]] }

def emptyPdfJob : JobRec :=
  { id := "job-c2", source := "/tmp/empty.pdf",
    collection := some { name := "compliance" } }

/-- C2: the claim (and the repository's own test
`test_pipeline_raises_when_no_chunks`, which expects
`IngestionError("No chunks produced...")`) says a job whose parsed documents
yield zero chunk payloads must fail.  The code instead hits
`if not chunk_payloads: continue` and finishes normally: on a document whose
only page is whitespace, `run` returns without raising, persists a document
row and zero chunks, and the worker would mark the job `success`. -/
theorem claim_C2_zero_chunks_completes :
    (runJob {} emptyPageParser guardedEmbedder emptyPdfFs emptyPdfJob
        ({} : DBState Unit)).1 = .ok ()
      ∧ (runJob {} emptyPageParser guardedEmbedder emptyPdfFs emptyPdfJob
          ({} : DBState Unit)).2.chunks = []
      ∧ (runJob {} emptyPageParser guardedEmbedder emptyPdfFs emptyPdfJob
          ({} : DBState Unit)).2.documents.length = 1 := by
  decide

/-- Parser returning one real page; embedder that raises. -/
def helloParser : FPath → Except String (List ParsedDocument) := fun _ =>
  .ok [{ title := "Doc"
         pages := [{ number := 1, content := "Hello world", metadata := [] }]
         metadata := [] }]

def failingEmbedder : Embedder Unit := { embed := fun _ => .error "boom" }

def docPdfFs : FileSys := { files := [["tmp", "doc.pdf"]] }

def docPdfJob : JobRec := { id := "job-c5", source := "/tmp/doc.pdf" }

/-- C5: the claim that *every* failing step's event is marked `failed` before
the exception propagates is false: only the parse step of `run` sits in a
`try`/`except`.  When the embedding backend raises (`"boom"`), the exception
propagates out of `run` while the `embedding_indexing` event is left with
status `running`, and no event at all is `failed`. -/
theorem claim_C5_counterexample :
    (runJob {} helloParser failingEmbedder docPdfFs docPdfJob
        ({} : DBState Unit)).1 = .error "boom"
      ∧ (get_event_for_step
          (runJob {} helloParser failingEmbedder docPdfFs docPdfJob
            ({} : DBState Unit)).2 "job-c5" .embedding_indexing).map (·.status) =
          some .running
      ∧ (runJob {} helloParser failingEmbedder docPdfFs docPdfJob
          ({} : DBState Unit)).2.events.filter (fun e => e.status = .failed) =
          [] := by
  decide

/-- C5 (amended): only the parse step is guarded: when `parser.parse` raises
on the first discovered source, `run` marks the `docling_parse` event
`failed` with the error text as its detail and re-raises the exception;
exceptions raised by the later steps (chunk, embed, citation) propagate
without that step's event being marked `failed` (see the counterexample,
where the embedding event stays `running`). -/
theorem claim_C5_amended {E : Type} (cfg : PipelineCfg)
    (parse : FPath → Except String (List ParsedDocument))
    (embedder : Embedder E) (fs : FileSys) (job : JobRec) (p : FPath)
    (ps : List FPath) (msg : String)
    (hcollect : collect_sources fs cfg.allowedExtensions job.source =
      .ok (p :: ps))
    (hparse : parse p = .error msg) :
    (runJob cfg parse embedder fs job ({} : DBState E)).1 = .error msg
      ∧ (get_event_for_step
          (runJob cfg parse embedder fs job ({} : DBState E)).2 job.id
          .docling_parse).map (fun e => (e.status, e.detail)) =
          some (.failed, some (.errorText msg)) := by
  simp [runJob, hcollect, runPaths, hparse, ensure_event, get_event_for_step,
    create_event, update_event_status, setEvent]

/-- Witness for C5 (amended): a parser that raises on a concrete single-file
source. -/
theorem claim_C5_amended_witness :
    (collect_sources docPdfFs
        ({} : PipelineCfg).allowedExtensions docPdfJob.source =
        .ok ([["tmp", "doc.pdf"]] : List FPath))
      ∧ ((fun _ => .error "docling exploded" :
          FPath → Except String (List ParsedDocument)) ["tmp", "doc.pdf"] =
          .error "docling exploded")
      ∧ ((runJob {} (fun _ => .error "docling exploded") guardedEmbedder
            docPdfFs docPdfJob ({} : DBState Unit)).1 =
            .error "docling exploded"
          ∧ (get_event_for_step
              (runJob {} (fun _ => .error "docling exploded") guardedEmbedder
                docPdfFs docPdfJob ({} : DBState Unit)).2 docPdfJob.id
              .docling_parse).map (fun e => (e.status, e.detail)) =
              some (.failed, some (.errorText "docling exploded"))) :=
  ⟨by decide, rfl,
    claim_C5_amended {} (fun _ => .error "docling exploded") guardedEmbedder
      docPdfFs docPdfJob ["tmp", "doc.pdf"] [] "docling exploded"
      (by decide) rfl⟩

/-! ### C9: source discovery -/

def nestedDirFs : FileSys :=
  { files := [["d", "sub", "x.txt"]], dirs := [["d"], ["d", "sub"]] }

/-- C9: the claim that a directory source is scanned only for files
*directly inside* it is false: `_collect_sources` uses `rglob("*")`, which
recurses.  For a directory `/d` whose only supported file sits in the nested
subdirectory `/d/sub`, the pipeline still collects that file (the claim
would require the result to be empty). -/
theorem claim_C9_counterexample :
    collect_sources nestedDirFs SUPPORTED_EXTENSIONS "/d" =
        .ok [["d", "sub", "x.txt"]]
      ∧ (["d", "sub", "x.txt"] : FPath).length ≠ (["d"] : FPath).length + 1 := by
  decide

/-- C9 (amended): a supported single-file source yields exactly that file; a
directory source yields exactly the supported files anywhere under it,
recursively including nested subdirectories; a path that is neither raises
immediately. -/
theorem claim_C9_amended (fs : FileSys) (allowed : List String)
    (source : String) :
    ((isFile fs (resolvePathStr fs source) &&
        is_supported allowed (resolvePathStr fs source)) = true →
      collect_sources fs allowed source = .ok [resolvePathStr fs source])
    ∧ ((isFile fs (resolvePathStr fs source) &&
          is_supported allowed (resolvePathStr fs source)) = false →
        isDir fs (resolvePathStr fs source) = true →
        ∃ l, collect_sources fs allowed source = .ok l ∧
          ∀ f, f ∈ l ↔ (f ∈ fs.files
            ∧ (resolvePathStr fs source).isPrefixOf f = true
            ∧ f ≠ resolvePathStr fs source
            ∧ is_supported allowed f = true))
    ∧ ((isFile fs (resolvePathStr fs source) &&
          is_supported allowed (resolvePathStr fs source)) = false →
        isDir fs (resolvePathStr fs source) = false →
        collect_sources fs allowed source =
          .error ("Source " ++ source ++ " does not exist")) := by
  refine ⟨fun h => ?_, fun h hdir => ?_, fun h hdir => ?_⟩
  · simp [collect_sources, h]
  · refine ⟨fs.files.filter (fun f =>
        (resolvePathStr fs source).isPrefixOf f
          && !(f == resolvePathStr fs source) && is_supported allowed f),
      ?_, fun f => ?_⟩
    · simp [collect_sources, h, hdir]
    · simp [List.mem_filter]
      tauto
  · simp [collect_sources, h, hdir]

/-- Witness for C9 (amended): the nested-directory scenario. -/
theorem claim_C9_amended_witness :
    ((isFile nestedDirFs (resolvePathStr nestedDirFs "/d") &&
        is_supported SUPPORTED_EXTENSIONS (resolvePathStr nestedDirFs "/d")) =
        false)
      ∧ isDir nestedDirFs (resolvePathStr nestedDirFs "/d") = true
      ∧ (∃ l, collect_sources nestedDirFs SUPPORTED_EXTENSIONS "/d" = .ok l ∧
          ∀ f, f ∈ l ↔ (f ∈ nestedDirFs.files
            ∧ (resolvePathStr nestedDirFs "/d").isPrefixOf f = true
            ∧ f ≠ resolvePathStr nestedDirFs "/d"
            ∧ is_supported SUPPORTED_EXTENSIONS f = true)) :=
  ⟨by decide, by decide,
    (claim_C9_amended nestedDirFs SUPPORTED_EXTENSIONS "/d").2.1 (by decide)
      (by decide)⟩

/-! ## Page-text sanitisation (`_sanitize_page_text`)

`tests/ingestion/test_chunking_utils.py` imports `_sanitize_page_text` from
`src.ingestion.pipeline`, but the module under `src/` does not define it; the
function is modelled here from the spec. -/

/-- Drop characters up to and including the first occurrence of `c`. -/
def skipPastChar (c : Char) : List Char → List Char
  | [] => []
  | x :: rest => if x = c then rest else skipPastChar c rest

/-- Drop characters until the next whitespace (keeping the whitespace). -/
def skipToWs : List Char → List Char
  | [] => []
  | x :: rest => if x.isWhitespace then x :: rest else skipToWs rest

/-- Drop characters up to and including the closing `-->`. -/
def skipPastCommentEnd : List Char → List Char
  | '-' :: '-' :: '>' :: rest => rest
  | _ :: rest => skipPastCommentEnd rest
  | [] => []

/-- One left-to-right pass removing inline image payloads: markdown image
references (`![` up to the closing `)`), HTML image tags (`<img` up to `>`),
HTML comments (`<!--` up to `-->`) and raw data URIs (`data:image` up to the
next whitespace).  The fuel is the input length; every step consumes at least
one character. -/
def sanitizeCore : Nat → List Char → List Char
  | 0, _ => []
  | _, [] => []
  | fuel + 1, '!' :: '[' :: rest => sanitizeCore fuel (skipPastChar ')' rest)
  | fuel + 1, '<' :: 'i' :: 'm' :: 'g' :: rest =>
    sanitizeCore fuel (skipPastChar '>' rest)
  | fuel + 1, '<' :: '!' :: '-' :: '-' :: rest =>
    sanitizeCore fuel (skipPastCommentEnd rest)
  | fuel + 1,
      'd' :: 'a' :: 't' :: 'a' :: ':' :: 'i' :: 'm' :: 'a' :: 'g' :: 'e' :: rest =>
    sanitizeCore fuel (skipToWs rest)
  | fuel + 1, c :: rest => c :: sanitizeCore fuel rest

/-- Split at whitespace (the groups of `str.split()`, empties included). -/
def splitWs : List Char → List (List Char)
  | [] => [[]]
  | c :: rest =>
    let r := splitWs rest
    if c.isWhitespace then [] :: r
    else
      match r with
      | [] => [[c]]
      | g :: gs => (c :: g) :: gs

/-- Join words with single spaces (`" ".join(...)`). -/
def joinWords : List (List Char) → List Char
  | [] => []
  | [w] => w
  | w :: rest => w ++ ' ' :: joinWords rest

/-- Modelled from the spec: `_sanitize_page_text` is imported from
`src.ingestion.pipeline` by the repository's tests but absent from the module
under `src/`.  Per the spec (§4.2/§8), inline image data embedded in page text
— data URIs, HTML image tags, markdown image references and HTML comments —
is stripped, and whitespace is collapsed to single spaces. -/
def sanitize_page_text (s : String) : String :=
  ⟨joinWords ((splitWs (sanitizeCore s.data.length s.data)).filter (· ≠ []))⟩

set_option maxRecDepth 8000 in
/-- C4: sanitisation strips every inline image payload and collapses
whitespace: the spec's own vector — plain words interleaved with a markdown
image reference carrying a data URI, an HTML `<img>` tag, a raw data URI and
an HTML comment — reduces to exactly the plain words joined by single
spaces. -/
theorem claim_C4_sanitize_strips_images :
    sanitize_page_text
        ("Intro ![caption](data:image/png;base64,AAAA) middle " ++
         "<img src=\"data:image/png;base64,BBBB\" alt=\"\" /> " ++
         "data:image/png;base64,CCCC <!-- image --> end") =
      "Intro middle end" := by
  decide

/-! ## JSON values and the Docling parse cache (`DoclingParser`)

JSON-decoded payloads are embedded as `JVal`.  On such values the source's
`_normalise_object` is the identity (they contain no foreign objects with
`model_dump`/`dict`/`__dict__`), so it is not reproduced as a separate
function. -/

inductive JVal where
  | null
  | bool (b : Bool)
  | num (n : Int)
  | str (s : String)
  | arr (items : List JVal)
  | obj (fields : List (String × JVal))

/-- A JSON object's fields. -/
abbrev JObj := List (String × JVal)

mutual

/-- Structural size of a JSON value, used as recursion fuel. -/
def jSize : JVal → Nat
  | .null => 1
  | .bool _ => 1
  | .num _ => 1
  | .str _ => 1
  | .arr items => 1 + jSizeList items
  | .obj fields => 1 + jSizeFields fields

def jSizeList : List JVal → Nat
  | [] => 0
  | v :: rest => jSize v + jSizeList rest

def jSizeFields : List (String × JVal) → Nat
  | [] => 0
  | (_, v) :: rest => jSize v + jSizeFields rest

end

/-- `mapping.get(key)`. -/
def jGet (fields : JObj) (k : String) : Option JVal :=
  (fields.find? (fun kv => kv.1 = k)).map (·.2)

/-- Python truthiness of a JSON value. -/
def jTruthy : JVal → Bool
  | .null => false
  | .bool b => b
  | .num n => n ≠ 0
  | .str s => s ≠ ""
  | .arr items => !items.isEmpty
  | .obj fields => !fields.isEmpty

/-- A Python `get(k1) or get(k2) or …` chain: the first truthy value, else
the value of the final lookup. -/
def jOrChain (fields : JObj) : List String → Option JVal
  | [] => none
  | [k] => jGet fields k
  | k :: rest =>
    match jGet fields k with
    | some v => if jTruthy v then some v else jOrChain fields rest
    | none => jOrChain fields rest

/-- `DoclingParser._looks_like_document_format`. -/
def looks_like_document_format (fields : JObj) : Bool :=
  (match jGet fields "pages" with
   | some (.arr _) => true
   | some (.obj _) => true
   | _ => false) ||
  (match jGet fields "document" with
   | some (.obj d) => (jGet d "pages").isSome
   | _ => false)

/-- `DoclingParser._discover_document_formats`'s recursive `_walk`.  The fuel
(`sizeOf` of the value) dominates the recursion depth, which always descends
into strict sub-values. -/
def discoverAux : Nat → JVal → List JObj
  | 0, _ => []
  | fuel + 1, v =>
    match v with
    | .obj fields =>
      if looks_like_document_format fields then [fields]
      else
        ["documents", "items", "results", "document", "document_format"].foldl
          (fun acc key =>
            match jGet fields key with
            | some w => acc ++ discoverAux fuel w
            | none => acc) []
    | .arr items => items.foldl (fun acc w => acc ++ discoverAux fuel w) []
    | _ => []

/-- `DoclingParser._discover_document_formats`. -/
def discover_document_formats (v : JVal) : List JObj :=
  discoverAux (jSize v) v

/-- The state of the cache artifact `cache_dir/<hash>.json`. -/
inductive CacheContent
  | missing
  | corrupt
  | stored (v : JVal)

/-- `DoclingParser._read_json`: `json.loads(path.read_text())`, catching
`FileNotFoundError` and `JSONDecodeError` and returning `None`. -/
def read_json : CacheContent → Option JVal
  | .stored v => some v
  | _ => none

/-- `DoclingParser._load_cached_document`. -/
def load_cached_document (c : CacheContent) : List JObj :=
  match read_json c with
  | none => []
  | some payload =>
    if !(jTruthy payload) then []
    else
      match payload with
      | .obj fields =>
        if looks_like_document_format fields then [fields]
        else discover_document_formats payload
      | _ => discover_document_formats payload

/-- On-disk state owned by `DoclingParser` for one source file: the parse
artifact for the file's hash and the path→hash index. -/
structure DoclingFS where
  artifact : CacheContent := .missing
  hashIndex : List (String × String) := []

def lookupStr (l : List (String × String)) (k : String) : Option String :=
  (l.find? (fun kv => kv.1 = k)).map (·.2)

def setAssoc (l : List (String × String)) (k v : String) :
    List (String × String) :=
  l.filter (fun kv => kv.1 ≠ k) ++ [(k, v)]

/-- `DoclingParser._parse_plaintext` (reading with `errors="ignore"` cannot
fail, so the model is total). -/
def parse_plaintext (path : FPath) (fileText : String) : List ParsedDocument :=
  let metadata : Meta :=
    [("source_path", .str (fpathStr path)),
     ("title", .str (pathStem (fpathName path))),
     ("document_name", .str (fpathName path))]
  [{ title := pathStem (fpathName path)
     pages := [{ number := 1, content := fileText, metadata := metadata }]
     metadata := metadata }]

/-- Result of `_parse_with_docling`: the parsed documents or the raised
error, the updated on-disk state, and a ghost flag recording whether the
external converter was invoked. -/
structure ParseResult where
  outcome : Except String (List ParsedDocument)
  fs : DoclingFS
  converterInvoked : Bool

/-- `DoclingParser._parse_with_docling`, parameterised over the converter's
behaviour at this path (`none` = converter unavailable; `some (.error _)` =
`convert` raised; `some (.ok v)` = the normalised view of its result) and
over `prepareDocument`, the pure payload-reshaping of `_prepare_document`
(whose preview-image file I/O is not needed by any cache claim). -/
def parse_with_docling (converter : Option (Except String JVal))
    (prepareDocument : JObj → ParsedDocument) (fs : DoclingFS) (path : FPath)
    (fileHash : String) (fileText : String) : ParseResult :=
  let afterCache := fun (fs' : DoclingFS) (docs : List JObj) (invoked : Bool) =>
    let pathKey := fpathStr path
    let fs2 :=
      if lookupStr fs'.hashIndex pathKey ≠ some fileHash then
        { fs' with hashIndex := setAssoc fs'.hashIndex pathKey fileHash }
      else fs'
    let parsed := docs.map prepareDocument
    { outcome := .ok (if parsed.isEmpty then parse_plaintext path fileText
                      else parsed)
      fs := fs2, converterInvoked := invoked : ParseResult }
  match load_cached_document fs.artifact, converter with
  | [], some conv =>
    match conv with
    | .error _ =>
      { outcome := .error ("Docling conversion failed for " ++ fpathStr path)
        fs := fs, converterInvoked := true }
    | .ok result =>
      match discover_document_formats result with
      | [] =>
        { outcome := .ok (parse_plaintext path fileText)
          fs := fs, converterInvoked := true }
      | d :: ds =>
        afterCache { fs with artifact := .stored (.obj d) } (d :: ds) true
  | [], none =>
    { outcome := .ok (parse_plaintext path fileText)
      fs := fs, converterInvoked := false }
  | d :: ds, _ => afterCache fs (d :: ds) false

/-- C7: an artifact that exists but cannot be used — unparsable JSON
(`corrupt`) or parsable content in which no document format is found — makes
`_load_cached_document` yield nothing, and `_parse_with_docling` then behaves
exactly as on a missing artifact: the converter is invoked, and when it
yields a document format the artifact is rebuilt from it and parsing
completes without raising.  The corrupted artifact itself never causes a
raise: the outcome is identical to the missing-artifact outcome for every
converter behaviour. -/
theorem claim_C7_corrupt_cache_is_miss (prepareDocument : JObj → ParsedDocument)
    (art : CacheContent) (path : FPath) (fileHash fileText : String)
    (idx : List (String × String)) (out : JVal) (d : JObj) (ds : List JObj)
    (hart : load_cached_document art = [])
    (hdisc : discover_document_formats out = d :: ds) :
    load_cached_document .corrupt = []
      ∧ (∀ conv,
          (parse_with_docling conv prepareDocument
            { artifact := art, hashIndex := idx } path fileHash
            fileText).outcome =
          (parse_with_docling conv prepareDocument
            { artifact := .missing, hashIndex := idx } path fileHash
            fileText).outcome
          ∧ (parse_with_docling conv prepareDocument
              { artifact := art, hashIndex := idx } path fileHash
              fileText).converterInvoked =
            (parse_with_docling conv prepareDocument
              { artifact := .missing, hashIndex := idx } path fileHash
              fileText).converterInvoked)
      ∧ (parse_with_docling (some (.ok out)) prepareDocument
          { artifact := art, hashIndex := idx } path fileHash
          fileText).converterInvoked = true
      ∧ (parse_with_docling (some (.ok out)) prepareDocument
          { artifact := art, hashIndex := idx } path fileHash
          fileText).fs.artifact = .stored (.obj d)
      ∧ (parse_with_docling (some (.ok out)) prepareDocument
          { artifact := art, hashIndex := idx } path fileHash
          fileText).outcome =
          .ok ((d :: ds).map prepareDocument) := by
  have hmiss : load_cached_document .missing = [] := rfl
  refine ⟨rfl, fun conv => ?_, ?_, ?_, ?_⟩
  · cases conv with
    | none => simp [parse_with_docling, hart, hmiss]
    | some c =>
      cases c with
      | error e => simp [parse_with_docling, hart, hmiss]
      | ok result =>
        simp only [parse_with_docling, hart, hmiss]
        cases discover_document_formats result with
        | nil => exact ⟨rfl, rfl⟩
        | cons d' ds' => exact ⟨rfl, rfl⟩
  · simp only [parse_with_docling, hart, hdisc]
  · simp only [parse_with_docling, hart, hdisc]
    split <;> rfl
  · simp only [parse_with_docling, hart, hdisc, List.map_cons]
    split
    · next h => simp at h
    · rfl

/-- Witness for C7: a concrete corrupt artifact and a converter result whose
document format carries one page. -/
theorem claim_C7_witness :
    load_cached_document .corrupt = []
      ∧ discover_document_formats
          (.obj [("pages", .arr [.obj [("text", .str "hello")]])]) =
          [[("pages", .arr [.obj [("text", .str "hello")]])]]
      ∧ ((parse_with_docling
            (some (.ok (.obj [("pages", .arr [.obj [("text", .str "hello")]])])))
            (fun _ => { title := "t", pages := [], metadata := [] })
            { artifact := .corrupt, hashIndex := [] } ["tmp", "a.pdf"] "h"
            "raw").converterInvoked = true
          ∧ (parse_with_docling
              (some (.ok (.obj [("pages", .arr [.obj [("text", .str "hello")]])])))
              (fun _ => { title := "t", pages := [], metadata := [] })
              { artifact := .corrupt, hashIndex := [] } ["tmp", "a.pdf"] "h"
              "raw").fs.artifact =
            .stored (.obj [("pages", .arr [.obj [("text", .str "hello")]])])) :=
  ⟨rfl, rfl,
    (claim_C7_corrupt_cache_is_miss
      (fun _ => { title := "t", pages := [], metadata := [] }) .corrupt
      ["tmp", "a.pdf"] "h" "raw" []
      (.obj [("pages", .arr [.obj [("text", .str "hello")]])])
      [("pages", .arr [.obj [("text", .str "hello")]])] [] rfl
      rfl).2.2.1,
    (claim_C7_corrupt_cache_is_miss
      (fun _ => { title := "t", pages := [], metadata := [] }) .corrupt
      ["tmp", "a.pdf"] "h" "raw" []
      (.obj [("pages", .arr [.obj [("text", .str "hello")]])])
      [("pages", .arr [.obj [("text", .str "hello")]])] [] rfl
      rfl).2.2.2.1⟩

/-! ## Page preview images: `src/ingestion/docling_images.py`

Models of the module-level helper functions (`_decode_image`,
`_image_extension`, `_iter_pages`, `_candidate_media`, `_media_to_bytes`,
`_extract_page_image`) and of the static methods of `DoclingImageLocator`
(`_existing_page_image`, `_load_json`), all of which are callable without an
instance.  The locator class itself can never be instantiated in the staged
source — see the construction model below. -/

/-- Value of one base64 alphabet character. -/
def b64CharVal (c : Char) : Option Nat :=
  if 'A' ≤ c ∧ c ≤ 'Z' then some (c.toNat - 'A'.toNat)
  else if 'a' ≤ c ∧ c ≤ 'z' then some (c.toNat - 'a'.toNat + 26)
  else if '0' ≤ c ∧ c ≤ '9' then some (c.toNat - '0'.toNat + 52)
  else if c = '+' then some 62
  else if c = '/' then some 63
  else none

/-- Decode 4-character base64 groups; `=` padding only at the end; a group
count mismatch is a `binascii.Error` (`none`). -/
def b64Groups : List Char → Option (List Nat)
  | [] => some []
  | a :: b :: c :: d :: rest =>
    match b64CharVal a, b64CharVal b with
    | some va, some vb =>
      if c = '=' then
        if d = '=' ∧ rest = [] then some [va * 4 + vb / 16] else none
      else
        match b64CharVal c with
        | some vc =>
          if d = '=' then
            if rest = [] then some [va * 4 + vb / 16, (vb % 16) * 16 + vc / 4]
            else none
          else
            match b64CharVal d with
            | some vd =>
              (b64Groups rest).map (fun tl =>
                (va * 4 + vb / 16) :: ((vb % 16) * 16 + vc / 4) ::
                  ((vc % 4) * 64 + vd) :: tl)
            | none => none
        | none => none
    | _, _ => none
  | _ => none

/-- `base64.b64decode` (non-strict): characters outside the alphabet are
discarded before decoding. -/
def b64decode (s : String) : Option (List Nat) :=
  b64Groups (s.data.filter (fun c => (b64CharVal c).isSome || c = '='))

/-- The part after the first comma (`uri.split(",", 1)[1]`). -/
def splitComma1 : List Char → Option (List Char)
  | [] => none
  | c :: rest => if c = ',' then some rest else splitComma1 rest

/-- `_decode_image` of `src/ingestion/docling_images.py`. -/
def decode_image (uri : String) : Option (List Nat) :=
  if !("data:image".data.isPrefixOf uri.data) then none
  else
    match splitComma1 uri.data with
    | none => none
    | some dataPart => b64decode ⟨dataPart⟩

/-- `mimetype.split("/", 1)[1]`. -/
def afterFirstSlash : List Char → List Char
  | [] => []
  | c :: rest => if c = '/' then rest else afterFirstSlash rest

/-- `_image_extension`. -/
def image_extension (mimetype : Option String) : String :=
  match mimetype with
  | none => ".png"
  | some m =>
    if m = "" ∨ !(m.data.contains '/') then ".png"
    else
      let subtype := strLower ⟨afterFirstSlash m.data⟩
      if subtype = "jpeg" ∨ subtype = "jpg" then ".jpg"
      else if subtype = "png" ∨ subtype = "gif" ∨ subtype = "webp"
          ∨ subtype = "bmp" then "." ++ subtype
      else ".png"

def digitsToNat (cs : List Char) : Nat :=
  cs.foldl (fun acc c => acc * 10 + (c.toNat - '0'.toNat)) 0

/-- `int(x)` on a JSON value (digit strings; no claim exercises signs or
floats). -/
def jToIntOpt : JVal → Option Int
  | .num n => some n
  | .bool b => some (if b then 1 else 0)
  | .str s =>
    if s ≠ "" ∧ s.data.all Char.isDigit then some (digitsToNat s.data)
    else none
  | _ => none

/-- `int(key)` on a dict key. -/
def strKeyToInt (s : String) : Option Int :=
  if s ≠ "" ∧ s.data.all Char.isDigit then some (digitsToNat s.data) else none

/-- List pages (`enumerate(pages, start=1)` keeping mappings). -/
def enumPagesFrom : Nat → List JVal → List (Option Int × JObj)
  | _, [] => []
  | i, v :: rest =>
    match v with
    | .obj pf => (some (Int.ofNat i), pf) :: enumPagesFrom (i + 1) rest
    | _ => enumPagesFrom (i + 1) rest

/-- `_iter_pages`: pages of the payload itself, of each entry of
`documents`, and of `document`, recursively. -/
def iterPagesAux : Nat → JObj → List (Option Int × JObj)
  | 0, _ => []
  | fuel + 1, payload =>
    let fromPages :=
      match jGet payload "pages" with
      | some (.obj fields) =>
        fields.foldr (fun kv acc =>
          match kv.2 with
          | .obj pf => (strKeyToInt kv.1, pf) :: acc
          | _ => acc) []
      | some (.arr items) => enumPagesFrom 1 items
      | _ => []
    let fromDocs :=
      match jGet payload "documents" with
      | some (.arr ds) =>
        ds.foldr (fun dv acc =>
          match dv with
          | .obj df => iterPagesAux fuel df ++ acc
          | _ => acc) []
      | _ => []
    let fromDoc :=
      match jGet payload "document" with
      | some (.obj df) => iterPagesAux fuel df
      | _ => []
    fromPages ++ fromDocs ++ fromDoc

def iter_pages (payload : JObj) : List (Option Int × JObj) :=
  iterPagesAux (jSizeFields payload) payload

def isObjOrStr : JVal → Bool
  | .obj _ => true
  | .str _ => true
  | _ => false

/-- `_candidate_media`. -/
def candidate_media (payload : JObj) : List JVal :=
  let keys := ["image", "preview_image", "preview", "thumbnail"]
  let pick := fun (fields : JObj) =>
    keys.foldr (fun k acc =>
      match jGet fields k with
      | some v => if isObjOrStr v then v :: acc else acc
      | none => acc) []
  let fromResources :=
    match jGet payload "resources" with
    | some (.obj rf) =>
      let assets :=
        match jGet rf "assets" with
        | some (.arr asl) => asl.filter isObjOrStr
        | _ => []
      pick rf ++ assets
    | _ => []
  let fromMedia :=
    match jGet payload "media" with
    | some (.arr ms) => ms.filter isObjOrStr
    | _ => []
  pick payload ++ fromResources ++ fromMedia

/-- `_media_to_bytes`. -/
def media_to_bytes (candidate : JVal) : Option (List Nat) × String :=
  match candidate with
  | .str uri =>
    (match decode_image uri with
     | some bs => if bs.isEmpty then (none, "") else (some bs, image_extension none)
     | none => (none, ""))
  | .obj cf =>
    (match jOrChain cf ["uri", "data", "source"] with
     | some (.str u) =>
       if "file://".data.isPrefixOf u.data then (none, "")
       else
         (match decode_image u with
          | some bs =>
            if bs.isEmpty then (none, "")
            else
              (some bs, image_extension
                (match jOrChain cf ["mimetype", "mime_type", "content_type"] with
                 | some (.str m) => some m
                 | _ => none))
          | none => (none, ""))
     | _ => (none, ""))
  | _ => (none, "")

/-- The first media candidate that yields image bytes. -/
def firstMediaBytes : List JVal → Option (List Nat) × String
  | [] => (none, "")
  | m :: rest =>
    match media_to_bytes m with
    | (some bs, ext) => (some bs, ext)
    | (none, _) => firstMediaBytes rest

/-- `_extract_page_image`'s page loop: the first page whose number matches is
the only one whose media are examined. -/
def extractPageLoop (pageNumber : Int) :
    List (Option Int × JObj) → Option (List Nat) × String
  | [] => (none, "")
  | (fallback, pf) :: rest =>
    let rawNumber : Option JVal :=
      match jOrChain pf ["page_no", "page_number"] with
      | some v => if jTruthy v then some v else fallback.map JVal.num
      | none => fallback.map JVal.num
    let number : Option Int :=
      match rawNumber with
      | some v => jToIntOpt v
      | none => none
    if number = some pageNumber then firstMediaBytes (candidate_media pf)
    else extractPageLoop pageNumber rest

/-- `_extract_page_image`. -/
def extract_page_image (payload : JObj) (pageNumber : Int) :
    Option (List Nat) × String :=
  extractPageLoop pageNumber (iter_pages payload)

def insertStr (s : String) : List String → List String
  | [] => [s]
  | t :: rest => if s < t then s :: t :: rest else t :: insertStr s rest

def sortStrings (l : List String) : List String := l.foldr insertStr []

/-- `_existing_page_image`: the first (sorted) `page-{n}.*` file directly
inside the cache directory. -/
def existing_page_image (fs : FileSys) (cacheDir : FPath) (pageNumber : Int) :
    Option FPath :=
  let pref := "page-" ++ toString pageNumber ++ "."
  let names := (fs.files.filter (fun f =>
    f.dropLast = cacheDir ∧ pref.data.isPrefixOf (fpathName f).data)).map fpathName
  match sortStrings names with
  | [] => none
  | n :: _ => some (cacheDir ++ [n])

/-- `_load_json`: the parsed object at the path, `none` for a missing or
unparsable file. -/
def load_json (jsonMap : List (FPath × JObj)) (p : FPath) : Option JObj :=
  (jsonMap.find? (fun kv => kv.1 = p)).map (·.2)

/-! ### The locator class cannot be constructed

`DoclingImageLocator` is declared `@dataclass(slots=True)` with the single
field `storage`, so the generated class carries `__slots__ = ("storage",)`
and its instances have no `__dict__`.  Its `__post_init__` — run by the
generated `__init__` on every construction — begins with
`self._docling_dir = Path(self.storage.docling_output_dir).resolve()`, an
assignment to a name outside `__slots__`, which raises `AttributeError`.
Independently, `locate_from_metadata` calls `self._extract_page_image`, but
`_extract_page_image` is a module-level function of `docling_images.py`,
not an attribute of the class. -/

/-- `__slots__` of the generated `DoclingImageLocator` class: exactly the
dataclass fields. -/
def doclingImageLocatorSlots : List String := ["storage"]

/-- The names bound in the `DoclingImageLocator` class body: the dataclass
field and the methods defined there (the dataclass machinery adds dunder
methods, none of them named `_extract_page_image`). -/
def doclingImageLocatorClassAttrs : List String :=
  ["storage", "__post_init__", "locate_from_metadata", "mimetype_for",
   "_resolve_cache_dir", "_resolve_json_path", "_existing_page_image",
   "_load_json"]

/-- Setting an attribute on an instance of a `slots=True` class (which has
no `__dict__`): a name outside `__slots__` raises `AttributeError`. -/
def setattrSlots (slots : List String) (attr : String) : Except String Unit :=
  if slots.contains attr then .ok ()
  else .error ("AttributeError: " ++ attr)

/-- `DoclingImageLocator.__post_init__`: its first statement assigns
`self._docling_dir`. -/
def locator_post_init : Except String Unit :=
  setattrSlots doclingImageLocatorSlots "_docling_dir"

/-- `DoclingImageLocator(storage=...)`: the generated `__init__` stores the
declared field and then runs `__post_init__`, whose exception propagates. -/
def locator_construct : Except String Unit :=
  locator_post_init

/-- C10: the claim describes lookups the staged locator can never perform.
`DoclingImageLocator` is a `slots=True` dataclass whose `__post_init__`
assigns the undeclared attribute `_docling_dir`, so every construction
raises `AttributeError` before any lookup can run — while the repository's
own tests (`tests/ingestion/test_docling_images.py`) construct the locator
and assert exactly the claimed behaviour, including that an outside
`image_dir` yields `None`.  Independently, `locate_from_metadata` calls
`self._extract_page_image`, which is not an attribute of the class, so even
a constructed instance would raise `AttributeError` on the materialisation
path instead of writing and returning a path. -/
theorem claim_C10_locator_unconstructible :
    locator_construct = .error "AttributeError: _docling_dir"
      ∧ doclingImageLocatorSlots.contains "_docling_dir" = false
      ∧ doclingImageLocatorClassAttrs.contains "_extract_page_image" = false := by
  decide

end Ingestion
